import Mathlib

/-!
Verification of the cpp-channel library (include/channel.h) against its
specification.  The channel core `internal::_channel<T, N>` is embedded
shallowly: the mutex-protected shared state becomes an explicit record,
the deque of `(sender thread id, value)` pairs becomes a list with the
front at the head, and blocking condition-variable waits become either
explicit guards of a labelled step relation (for interleaved executions)
or `Option`-returning functions (for single-threaded executions, where a
wait whose predicate is false can never be woken and therefore blocks
forever).  Thread ids are modelled as natural numbers.
-/

/-- Shared state of `internal::_channel<T, N>`: the deque
`m_buffer` of `(sender id, value)` pairs (front at the head) and the
flag `m_is_send_done`.  The mutex and the three condition variables
have no state of their own in the embedding; the waits they implement
appear as guards. -/
structure ChanState (T : Type) where
  buffer : List (Nat × T)
  is_send_done : Bool
deriving Repr, DecidableEq

/-- Embedding of `_channel<T, N>::is_full()`: `m_buffer.size() > N`. -/
def is_full (N : Nat) (s : ChanState T) : Bool :=
  decide (s.buffer.length > N)

/-- Embedding of the `_channel` constructor: empty buffer,
`m_is_send_done` initialised to `true`. -/
def chanInit (T : Type) : ChanState T :=
  ⟨[], true⟩

/-- Embedding of `_channel<T, N>::recv()` as a state transformer: wait
until the buffer is nonempty (in a single-threaded run an empty buffer
blocks forever, hence `none`), move the front pair out, pop it, return
its value.  The `m_send_end_cv.notify_one()` call has no effect on the
modelled state. -/
def recv (s : ChanState T) : Option (T × ChanState T) :=
  match s.buffer with
  | [] => none
  | pair :: rest => some (pair.2, ⟨rest, s.is_send_done⟩)

/-- Embedding of `_channel<T, N>::recv(T&)`: identical wait, front move
and pop; the value is delivered by assignment to the out-parameter, so
the transformer returns the value stored in `t` together with the new
state. -/
def recv_out (s : ChanState T) : Option (T × ChanState T) :=
  match s.buffer with
  | [] => none
  | pair :: rest => some (pair.2, ⟨rest, s.is_send_done⟩)

/-- Model of `std::unique_ptr<T>` holding a value: the box returned by
`recv_ptr`. -/
structure UniquePtr (T : Type) where
  get : T
deriving Repr, DecidableEq

/-- Embedding of `_channel<T, N>::recv_ptr()`: identical wait, front
move and pop; the value is delivered boxed in a `unique_ptr` built by
`make_unique<T>(std::move(pair.second))`. -/
def recv_ptr (s : ChanState T) : Option (UniquePtr T × ChanState T) :=
  match s.buffer with
  | [] => none
  | pair :: rest => some (⟨pair.2⟩, ⟨rest, s.is_send_done⟩)

/-- Embedding of `_channel<T, N>::_send` for a single-threaded run.
Phase A waits until `!is_full() && m_is_send_done`, pushes
`(this thread, value)` and clears `m_is_send_done`; phase B waits until
`!is_full()` and sets `m_is_send_done` again.  With no other
participant a false wait predicate can never become true, so the wait
blocks forever (`none`). -/
def _send (N tid : Nat) (v : T) (s : ChanState T) : Option (ChanState T) :=
  if !is_full N s && s.is_send_done then
    let s1 : ChanState T := ⟨s.buffer ++ [(tid, v)], false⟩
    if !is_full N s1 then some ⟨s1.buffer, true⟩ else none
  else none

/-- Single-threaded `send(v)` directly followed by `recv()` on the same
channel, as in the round-trip law. -/
def sendThenRecv (N tid : Nat) (v : T) (s : ChanState T) : Option (T × ChanState T) :=
  (_send N tid v s).bind recv

/-- Model of a C++ element type as far as the library's compile-time
trait checks can see it: whether its copy constructor and its move
constructor are declared `noexcept`. -/
structure CppType where
  nothrow_copy_constructible : Bool
  nothrow_move_constructible : Bool
deriving Repr, DecidableEq

/-- Embedding of `internal::_is_exception_safe<T>`:
`std::is_nothrow_copy_constructible<T>::value or
std::is_nothrow_move_constructible<T>::value`. -/
def _is_exception_safe (t : CppType) : Bool :=
  t.nothrow_copy_constructible || t.nothrow_move_constructible

/-- The `static_assert(internal::_is_exception_safe<T>::value, ...)` in
`channel<T, N>::recv()`: the by-value receive compiles exactly when the
trait holds. -/
def recv_by_value_compiles (t : CppType) : Bool :=
  _is_exception_safe t

/-- The out-parameter receive `channel<T, N>::recv(T&)` carries no trait
gate: it compiles for every element type. -/
def recv_out_compiles (_t : CppType) : Bool :=
  true

/-- The boxed receive `channel<T, N>::recv_ptr()` carries no trait gate:
it compiles for every element type. -/
def recv_ptr_compiles (_t : CppType) : Bool :=
  true

/-- Value of `std::numeric_limits<std::size_t>::max()` on the modelled
64-bit platform. -/
def size_t_max : Nat := 2 ^ 64 - 1

/-- The `static_assert(N < std::numeric_limits<std::size_t>::max(), ...)`
appearing in both `internal::_channel<T, N>` and `channel<T, N>`: the
condition an instantiation must satisfy to compile. -/
def channel_capacity_ok (N : Nat) : Prop :=
  N < size_t_max

instance (N : Nat) : Decidable (channel_capacity_ok N) := by
  unfold channel_capacity_ok; infer_instance

/-- A `cpp::channel<T, N>` handle: `m_channel_ptr` is the identity of
the shared underlying `_channel` object (the address stored in the
`std::shared_ptr`). -/
structure channel_handle where
  m_channel_ptr : Nat
deriving Repr, DecidableEq

/-- A `cpp::ichannel<T, N>` receive-only handle. -/
structure ichannel_handle where
  m_channel_ptr : Nat
deriving Repr, DecidableEq

/-- A `cpp::ochannel<T, N>` send-only handle. -/
structure ochannel_handle where
  m_channel_ptr : Nat
deriving Repr, DecidableEq

/-- Embedding of the copy constructor `channel(const channel&)`: the
shared pointer is copied, the underlying object is not. -/
def copy_channel (c : channel_handle) : channel_handle :=
  ⟨c.m_channel_ptr⟩

/-- Embedding of the converting constructor `ichannel(const channel&)`. -/
def to_ichannel (c : channel_handle) : ichannel_handle :=
  ⟨c.m_channel_ptr⟩

/-- Embedding of the converting constructor `ochannel(const channel&)`. -/
def to_ochannel (c : channel_handle) : ochannel_handle :=
  ⟨c.m_channel_ptr⟩

/-- Embedding of `channel::operator==(const channel&)`: comparison of
the stored shared pointers. -/
def channel_eq (a b : channel_handle) : Bool :=
  a.m_channel_ptr == b.m_channel_ptr

/-- Embedding of `channel::operator==(const ichannel&)`. -/
def channel_ichannel_eq (a : channel_handle) (b : ichannel_handle) : Bool :=
  a.m_channel_ptr == b.m_channel_ptr

/-- Embedding of `channel::operator==(const ochannel&)`. -/
def channel_ochannel_eq (a : channel_handle) (b : ochannel_handle) : Bool :=
  a.m_channel_ptr == b.m_channel_ptr

/-- Embedding of `ichannel::operator==(const ichannel&)`. -/
def ichannel_eq (a b : ichannel_handle) : Bool :=
  a.m_channel_ptr == b.m_channel_ptr

/-- Embedding of `ochannel::operator==(const ochannel&)`. -/
def ochannel_eq (a b : ochannel_handle) : Bool :=
  a.m_channel_ptr == b.m_channel_ptr

/-!
Interleaved executions.  A system state pairs the shared `_channel`
state with the control state of the threads: `inflight` records the one
thread (if any) that has completed phase A of `_send` but not yet phase
B, together with the value it deposited.  Since `_send`'s phase A waits
for `m_is_send_done` and clears it, and only phase B sets it again, at
most one sender can be between the two phases at a time; a thread that
is suspended inside `_send` is sequential and so cannot simultaneously
execute a receive.
-/

/-- System state for interleaved executions: the shared channel state
plus the identity and value of the sender currently between phase A and
phase B of `_send`, if any. -/
structure SysState (T : Type) where
  chan : ChanState T
  inflight : Option (Nat × T)
deriving Repr, DecidableEq

/-- Initial system state: freshly constructed channel, no sender in
flight. -/
def sysInit (T : Type) : SysState T :=
  ⟨chanInit T, none⟩

/-- Atomic events of an interleaved execution: `sendA tid v` is thread
`tid` completing phase A of `_send` (the deposit of `v`), `sendB tid`
is the same thread completing phase B (the acknowledgement), and
`recv tid v` is thread `tid` dequeuing the front element whose value is
`v` (common to all three receive variants). -/
inductive Event (T : Type) where
  | sendA (tid : Nat) (v : T)
  | sendB (tid : Nat)
  | recv (tid : Nat) (v : T)
deriving Repr, DecidableEq

/-- Labelled step relation of `_channel<T, N>`.  Each constructor is
one mutex-protected critical section of the source:

* `sendA`: the wait `m_send_begin_cv.wait(lock, [this]{ return
  !is_full() && m_is_send_done; })` followed by
  `m_buffer.emplace_back(this_thread, v)` and `m_is_send_done = false`;
* `sendB`: the wait `m_send_end_cv.wait(lock, [this]{ return
  !is_full(); })` followed by `m_is_send_done = true`, available only
  to the thread whose phase A is pending;
* `recv`: the wait for a nonempty buffer followed by moving out and
  popping the front pair; the receiving thread must not itself be
  suspended inside `_send` (threads are sequential). -/
inductive Step (N : Nat) : SysState T → Event T → SysState T → Prop where
  | sendA (s : SysState T) (tid : Nat) (v : T)
      (hfull : is_full N s.chan = false)
      (hdone : s.chan.is_send_done = true) :
      Step N s (Event.sendA tid v)
        ⟨⟨s.chan.buffer ++ [(tid, v)], false⟩, some (tid, v)⟩
  | sendB (s : SysState T) (tid : Nat) (v : T)
      (hin : s.inflight = some (tid, v))
      (hfull : is_full N s.chan = false) :
      Step N s (Event.sendB tid) ⟨⟨s.chan.buffer, true⟩, none⟩
  | recv (s : SysState T) (tid sid : Nat) (v : T) (rest : List (Nat × T))
      (hbuf : s.chan.buffer = (sid, v) :: rest)
      (hseq : ∀ w, s.inflight ≠ some (tid, w)) :
      Step N s (Event.recv tid v) ⟨⟨rest, s.chan.is_send_done⟩, s.inflight⟩

/-- Reachability along a trace of events. -/
inductive Reach (N : Nat) : SysState T → List (Event T) → SysState T → Prop where
  | nil (s : SysState T) : Reach N s [] s
  | cons {s s' s'' : SysState T} {e : Event T} {tr : List (Event T)}
      (hstep : Step N s e s') (htail : Reach N s' tr s'') :
      Reach N s (e :: tr) s''

/-- Values deposited along a trace, in phase-A completion order. -/
def sent : List (Event T) → List T
  | [] => []
  | Event.sendA _ v :: tr => v :: sent tr
  | Event.sendB _ :: tr => sent tr
  | Event.recv _ _ :: tr => sent tr

/-- Values dequeued along a trace, in receive order. -/
def received : List (Event T) → List T
  | [] => []
  | Event.sendA _ _ :: tr => received tr
  | Event.sendB _ :: tr => received tr
  | Event.recv _ v :: tr => v :: received tr

/-- State invariant of the step relation: the `m_is_send_done` flag is
false exactly while a sender is between phase A and phase B, the buffer
never exceeds `N + 1` elements, and it exceeds `N` only while a sender
is in flight. -/
def SysInv (N : Nat) (s : SysState T) : Prop :=
  s.chan.is_send_done = s.inflight.isNone ∧
  s.chan.buffer.length ≤ N + 1 ∧
  (N < s.chan.buffer.length → s.inflight.isSome = true)

/-- Extra invariant of synchronous channels (capacity zero): the buffer
is empty, or it holds exactly the in-flight sender's pair.  Phase A of
`_send` with `N = 0` requires an empty buffer, so the deposited pair is
alone in it until a receive takes it. -/
def SyncInv (s : SysState T) : Prop :=
  s.chan.buffer = [] ∨ ∃ p, s.chan.buffer = [p] ∧ s.inflight = some p

/-- Embedding of `channel::operator=(const channel&)`: the destination
handle's shared pointer is replaced by the source's; the result is the
assigned-to handle. -/
def assign_channel (_dst src : channel_handle) : channel_handle :=
  ⟨src.m_channel_ptr⟩

/-- Embedding of the assertion
`assert(!is_full() || std::this_thread::get_id() != pair.first)`
executed by every receive variant after moving the front pair `front`
out of the buffer and before popping it: the receiving thread `tid`
must differ from the front's tagged sender whenever the buffer is
full. -/
def recv_assert_ok (N tid : Nat) (s : ChanState T) (front : Nat × T) : Prop :=
  is_full N s = false ∨ tid ≠ front.1

instance {N tid : Nat} {s : ChanState T} {front : Nat × T} :
    Decidable (recv_assert_ok N tid s front) := by
  unfold recv_assert_ok; infer_instance

/-- Modelled from the spec: the select multiplexer (`cpp::select`) is
part of this repository but its implementation file is not present
under the sources, only its tests and callers; the model below follows
the specification, section 4.3.  A channel participating in a select is
its capacity together with its current state. -/
structure SelChan (T : Type) where
  cap : Nat
  st : ChanState T
deriving Repr, DecidableEq

/-- Modelled from the spec: a select case binds a channel (by its index
in the participating list) and a direction; a send case carries the
value to transmit.  Value delivery to callbacks and out-parameter
bindings is by the front element or deposited value and is not part of
the firing decision. -/
inductive SelectCase (T : Type) where
  | recvCase (ch : Nat)
  | sendCase (ch : Nat) (v : T)
deriving Repr, DecidableEq

/-- Channel index bound by a select case. -/
def SelectCase.chIdx : SelectCase T → Nat
  | SelectCase.recvCase i => i
  | SelectCase.sendCase i _ => i

/-- Modelled from the spec: readiness query of a select case — a
receive case is ready when its channel's buffer is nonempty, a send
case when the buffer has room and no send is in progress. -/
def caseReady (chans : List (SelChan T)) : SelectCase T → Bool
  | SelectCase.recvCase i =>
      match chans[i]? with
      | some c => !c.st.buffer.isEmpty
      | none => false
  | SelectCase.sendCase i _ =>
      match chans[i]? with
      | some c => !is_full c.cap c.st && c.st.is_send_done
      | none => false

/-- Modelled from the spec: firing a case performs its channel
operation on that channel only — a receive case dequeues the front
element, a send case deposits `(tid, v)` as in phase A of `_send`. -/
def fireCase (tid : Nat) (chans : List (SelChan T)) : SelectCase T → List (SelChan T)
  | SelectCase.recvCase i =>
      match chans[i]? with
      | some c => chans.set i ⟨c.cap, ⟨c.st.buffer.tail, c.st.is_send_done⟩⟩
      | none => chans
  | SelectCase.sendCase i v =>
      match chans[i]? with
      | some c => chans.set i ⟨c.cap, ⟨c.st.buffer ++ [(tid, v)], false⟩⟩
      | none => chans

/-- Modelled from the spec: the scan performed by `select::wait()` —
examine the cases in insertion order and fire the first ready one,
returning it with the updated channel list; if no case is ready the
wait blocks until one becomes ready (`none` here: nothing fires in the
scanned state), and `try_once()` returns without firing. -/
def selectScan (tid : Nat) (chans : List (SelChan T)) :
    List (SelectCase T) → Option (SelectCase T × List (SelChan T))
  | [] => none
  | c :: cs =>
      if caseReady chans c then some (c, fireCase tid chans c)
      else selectScan tid chans cs

theorem is_full_eq_false {N : Nat} {s : ChanState T} :
    is_full N s = false ↔ s.buffer.length ≤ N := by
  simp [is_full]

theorem is_full_eq_true {N : Nat} {s : ChanState T} :
    is_full N s = true ↔ N < s.buffer.length := by
  simp [is_full]

theorem step_preserves_inv {N : Nat} {s s' : SysState T} {e : Event T}
    (h : Step N s e s') (hinv : SysInv N s) : SysInv N s' := by
  obtain ⟨hdone, hlen, hsome⟩ := hinv
  cases h with
  | sendA tid v hfull hd =>
      refine ⟨rfl, ?_, fun _ => rfl⟩
      have hle : s.chan.buffer.length ≤ N := is_full_eq_false.mp hfull
      simp only [List.length_append, List.length_cons, List.length_nil]
      omega
  | sendB tid v hin hfull =>
      refine ⟨rfl, hlen, ?_⟩
      intro hgt
      have hle : s.chan.buffer.length ≤ N := is_full_eq_false.mp hfull
      simp only [] at hgt
      omega
  | recv tid sid v rest hbuf hseq =>
      have hlb : s.chan.buffer.length = rest.length + 1 := by simp [hbuf]
      refine ⟨hdone, ?_, ?_⟩
      · simp only []
        omega
      · intro hgt
        simp only [] at hgt
        omega

theorem reach_preserves_inv {N : Nat} {s s' : SysState T} {tr : List (Event T)}
    (h : Reach N s tr s') (hinv : SysInv N s) : SysInv N s' := by
  induction h with
  | nil s => exact hinv
  | cons hstep htail ih => exact ih (step_preserves_inv hstep hinv)

theorem sysInit_inv (N : Nat) (T : Type) : SysInv N (sysInit T) := by
  refine ⟨rfl, by simp [sysInit, chanInit], ?_⟩
  intro h
  simp [sysInit, chanInit] at h

theorem reach_buffer_eq {N : Nat} {s0 s1 : SysState T} {tr : List (Event T)}
    (h : Reach N s0 tr s1) :
    s0.chan.buffer.map Prod.snd ++ sent tr =
      received tr ++ s1.chan.buffer.map Prod.snd := by
  induction h with
  | nil s => simp [sent, received]
  | cons hstep htail ih =>
      cases hstep with
      | sendA tid v hfull hdone =>
          simp only [sent, received]
          simp only [List.map_append, List.map_cons, List.map_nil] at ih
          rw [← ih]
          simp
      | sendB tid v hin hfull =>
          simpa [sent, received] using ih
      | recv tid sid v rest hbuf hseq =>
          simp only [sent, received]
          simp only [] at ih
          rw [hbuf]
          simpa using ih

theorem reach_inflight_sent {N : Nat} {s0 s1 : SysState T} {tr : List (Event T)}
    {p : Nat × T} (h : Reach N s0 tr s1) (hin : s1.inflight = some p) :
    s0.inflight = some p ∨ p.2 ∈ sent tr := by
  induction h with
  | nil s => exact Or.inl hin
  | cons hstep htail ih =>
      rcases ih hin with hmid | hmem
      · cases hstep with
        | sendA tid v hfull hdone =>
            simp only [] at hmid
            right
            simp only [Option.some.injEq] at hmid
            simp [sent, ← hmid]
        | sendB tid v hin2 hfull =>
            simp only [] at hmid
            exact absurd hmid (by simp)
        | recv tid sid v rest hbuf hseq =>
            simp only [] at hmid
            exact Or.inl hmid
      · cases hstep with
        | sendA tid v hfull hdone => exact Or.inr (by simp [sent, hmem])
        | sendB tid v hin2 hfull => exact Or.inr (by simpa [sent] using hmem)
        | recv tid sid v rest hbuf hseq => exact Or.inr (by simpa [sent] using hmem)

theorem step_preserves_syncInv {s s' : SysState T} {e : Event T}
    (h : Step 0 s e s') (hinv : SyncInv s) : SyncInv s' := by
  cases h with
  | sendA tid v hfull hdone =>
      have hnil : s.chan.buffer = [] := by
        have := is_full_eq_false.mp hfull
        exact List.length_eq_zero.mp (by omega)
      right
      exact ⟨(tid, v), by simp [hnil], rfl⟩
  | sendB tid v hin hfull =>
      have hnil : s.chan.buffer = [] := by
        have := is_full_eq_false.mp hfull
        exact List.length_eq_zero.mp (by omega)
      left
      simpa using hnil
  | recv tid sid v rest hbuf hseq =>
      rcases hinv with hnil | ⟨p, hbuf2, hin⟩
      · rw [hnil] at hbuf; cases hbuf
      · left
        rw [hbuf] at hbuf2
        have : rest = [] := by
          have h2 := List.cons.inj hbuf2
          exact h2.2
        simpa using this

theorem reach_preserves_syncInv {s s' : SysState T} {tr : List (Event T)}
    (h : Reach 0 s tr s') (hinv : SyncInv s) : SyncInv s' := by
  induction h with
  | nil s => exact hinv
  | cons hstep htail ih => exact ih (step_preserves_syncInv hstep hinv)

/-- C1: per-channel FIFO delivery.  Along every interleaved execution
of `_send` and `recv` steps from a fresh channel, the sequence of
values dequeued by receives, followed by the values still buffered,
equals the sequence of values deposited by phase-A steps in their
completion order; in particular the receives yield a prefix of the
deposits in exactly the deposit order. -/
theorem c1_fifo_delivery (N : Nat) (tr : List (Event T)) (s : SysState T)
    (h : Reach N (sysInit T) tr s) :
    sent tr = received tr ++ s.chan.buffer.map Prod.snd ∧
    ∃ pending, received tr ++ pending = sent tr := by
  have heq := reach_buffer_eq h
  simp only [sysInit, chanInit, List.map_nil, List.nil_append] at heq
  exact ⟨heq, s.chan.buffer.map Prod.snd, heq.symm⟩

/-- Witness for C1 on the concrete interleaving in which thread 0 sends
5 and completes, thread 1 deposits 6 (still awaiting acknowledgement),
and thread 2 receives: the one receive yields 5, the first deposit. -/
theorem c1_fifo_delivery_witness :
    sent [Event.sendA 0 (5 : Nat), Event.sendB 0, Event.sendA 1 6, Event.recv 2 5] =
      received [Event.sendA 0 (5 : Nat), Event.sendB 0, Event.sendA 1 6, Event.recv 2 5]
        ++ [6] := by
  have hreach : Reach 1 (sysInit Nat)
      [Event.sendA 0 5, Event.sendB 0, Event.sendA 1 6, Event.recv 2 5]
      ⟨⟨[(1, 6)], false⟩, some (1, 6)⟩ := by
    refine Reach.cons (Step.sendA (sysInit Nat) 0 5 (by decide) (by decide)) ?_
    refine Reach.cons (Step.sendB _ 0 5 (by decide) (by decide)) ?_
    refine Reach.cons (Step.sendA _ 1 6 (by decide) (by decide)) ?_
    refine Reach.cons (Step.recv _ 2 0 5 [(1, 6)] (by decide) ?_) (Reach.nil _)
    intro w
    simp
  simpa using (c1_fifo_delivery 1 _ _ hreach).1

/-- C2: synchronous rendezvous.  On a capacity-zero channel, whenever a
sender is between phase A and phase B and the phase-B wait condition
`!is_full()` holds (the condition under which the send can return), the
value it deposited has already been dequeued and delivered by a
receive: every deposited value, the sender's own included, appears in
the receive history of the trace. -/
theorem c2_sync_rendezvous (tr : List (Event T)) (s : SysState T)
    (tid : Nat) (v : T) (h : Reach 0 (sysInit T) tr s)
    (hin : s.inflight = some (tid, v)) (hfull : is_full 0 s.chan = false) :
    received tr = sent tr ∧ v ∈ received tr := by
  have hnil : s.chan.buffer = [] := by
    have := is_full_eq_false.mp hfull
    exact List.length_eq_zero.mp (by omega)
  have heq := reach_buffer_eq h
  simp only [sysInit, chanInit, List.map_nil, List.nil_append, hnil,
    List.append_nil] at heq
  refine ⟨heq.symm, ?_⟩
  rcases reach_inflight_sent h hin with hbad | hmem
  · simp [sysInit] at hbad
  · exact heq ▸ hmem

/-- Witness for C2: thread 0 deposits 7 on a synchronous channel and
thread 1 receives it; at that point thread 0's phase B is enabled and
the theorem yields that 7 was already received. -/
theorem c2_sync_rendezvous_witness :
    (7 : Nat) ∈ received [Event.sendA 0 (7 : Nat), Event.recv 1 7] := by
  have hreach : Reach 0 (sysInit Nat) [Event.sendA 0 7, Event.recv 1 7]
      ⟨⟨[], false⟩, some (0, 7)⟩ := by
    refine Reach.cons (Step.sendA (sysInit Nat) 0 7 (by decide) (by decide)) ?_
    refine Reach.cons (Step.recv _ 1 0 7 [] (by decide) ?_) (Reach.nil _)
    intro w
    simp
  exact (c2_sync_rendezvous _ _ 0 7 hreach rfl (by decide)).2

/-- C3: bounded-buffer invariant.  In every reachable state of a
channel with capacity `N` the buffer holds at most `N + 1` elements,
it is full exactly when it holds more than `N`, and it holds more than
`N` only while some sender is between its phase-A deposit and its
phase-B acknowledgement (`m_is_send_done` still false). -/
theorem c3_bounded_buffer (N : Nat) (tr : List (Event T)) (s : SysState T)
    (h : Reach N (sysInit T) tr s) :
    s.chan.buffer.length ≤ N + 1 ∧
    (is_full N s.chan = true ↔ N < s.chan.buffer.length) ∧
    (N < s.chan.buffer.length →
      s.chan.is_send_done = false ∧ s.inflight.isSome = true) := by
  obtain ⟨hdone, hlen, hsome⟩ := reach_preserves_inv h (sysInit_inv N T)
  refine ⟨hlen, is_full_eq_true, ?_⟩
  intro hgt
  have hs := hsome hgt
  refine ⟨?_, hs⟩
  rw [hdone]
  cases hopt : s.inflight
  · rw [hopt] at hs; simp at hs
  · simp

/-- Witness for C3: on a synchronous channel after one deposit the
buffer transiently holds `N + 1 = 1` element and the send is marked
unacknowledged. -/
theorem c3_bounded_buffer_witness :
    [((0 : Nat), (5 : Nat))].length ≤ 0 + 1 ∧
    (ChanState.mk [((0 : Nat), (5 : Nat))] false).is_send_done = false := by
  have hreach : Reach 0 (sysInit Nat) [Event.sendA 0 5]
      ⟨⟨[(0, 5)], false⟩, some (0, 5)⟩ :=
    Reach.cons (Step.sendA (sysInit Nat) 0 5 (by decide) (by decide)) (Reach.nil _)
  have h := c3_bounded_buffer 0 _ _ hreach
  exact ⟨h.1, (h.2.2 (by decide)).1⟩

/-- C5 counterexample: on a synchronous channel (`N = 0`, the default)
with no other participants, `send(v)` never returns — its phase-B wait
`!is_full()` is false with the deposited element still buffered and no
other thread can empty the buffer — so the subsequent `recv()` is never
reached and no value is yielded at all. -/
theorem c5_round_trip_counterexample :
    sendThenRecv 0 0 (1 : Nat) (chanInit Nat) = none ∧
    ¬ ∃ x s', sendThenRecv 0 0 (1 : Nat) (chanInit Nat) = some (x, s') := by
  refine ⟨by decide, ?_⟩
  rintro ⟨x, s', h⟩
  rw [show sendThenRecv 0 0 (1 : Nat) (chanInit Nat) = none by decide] at h
  cases h

/-- C5 (amended): on an asynchronous channel (capacity `N ≥ 1`) with no
other participants, `send(v)` followed by `recv()` returns exactly `v`
and restores the initial channel state; and copying a handle preserves
the shared pointer, so the receive may equally be issued on a copy of
the sending handle — both operate on the same underlying channel
state. -/
theorem c5_round_trip_amended (N tid : Nat) (v : T) (hN : 1 ≤ N)
    (c : channel_handle) :
    sendThenRecv N tid v (chanInit T) = some (v, chanInit T) ∧
    copy_channel c = c := by
  constructor
  · have h0 : is_full N (⟨[], true⟩ : ChanState T) = false := by
      simp [is_full]
    have h1 : is_full N (⟨[(tid, v)], false⟩ : ChanState T) = false := by
      simp [is_full]
      omega
    simp [sendThenRecv, _send, chanInit, h0, h1, recv]
  · cases c
    rfl

/-- Witness for C5 (amended) at capacity 1. -/
theorem c5_round_trip_amended_witness :
    sendThenRecv 1 0 (3 : Nat) (chanInit Nat) = some (3, chanInit Nat) :=
  (c5_round_trip_amended 1 0 3 (by decide) ⟨0⟩).1

/-- C6: the three receive variants perform the identical state
transformation — wait until nonempty, pop exactly the front element —
and deliver the identical value; `recv_out` stores it through the
out-parameter and `recv_ptr` boxes it, so the variants agree up to that
delivery mechanism. -/
theorem c6_recv_variants_equivalent (s : ChanState T) :
    recv_out s = recv s ∧
    recv_ptr s = (recv s).map (fun p => (UniquePtr.mk p.1, p.2)) := by
  obtain ⟨buf, d⟩ := s
  cases buf <;> simp [recv, recv_out, recv_ptr]

/-- C7: the by-value `recv()` is accepted at compile time exactly when
the element type is nothrow-copy-constructible or
nothrow-move-constructible, while the out-parameter and boxed receives
are accepted for every element type. -/
theorem c7_exception_safety_gate (t : CppType) :
    (recv_by_value_compiles t = true ↔
      (t.nothrow_copy_constructible = true ∨
        t.nothrow_move_constructible = true)) ∧
    recv_out_compiles t = true ∧ recv_ptr_compiles t = true := by
  refine ⟨?_, rfl, rfl⟩
  simp [recv_by_value_compiles, _is_exception_safe]

/-- C8 counterexample: on a buffered channel of capacity 1, thread 0
completes an ordinary send, thread 1 deposits a second element (making
the buffer full, its acknowledgement pending), and thread 0 then
receives.  No self-send occurs — thread 0's send finished long before
its receive — yet thread 0 dequeues from a full buffer a front element
tagged with its own id, so the source assertion
`!is_full() || this_thread != pair.first` is violated. -/
theorem c8_self_receive_counterexample :
    Reach 1 (sysInit Nat) [Event.sendA 0 10, Event.sendB 0, Event.sendA 1 11]
      ⟨⟨[(0, 10), (1, 11)], false⟩, some (1, 11)⟩ ∧
    Step 1 ⟨⟨[(0, 10), (1, 11)], false⟩, some (1, 11)⟩ (Event.recv 0 10)
      ⟨⟨[(1, 11)], false⟩, some (1, 11)⟩ ∧
    is_full 1 (⟨[(0, 10), (1, 11)], false⟩ : ChanState Nat) = true ∧
    ¬ recv_assert_ok 1 0 (⟨[(0, 10), (1, 11)], false⟩ : ChanState Nat) (0, 10) := by
  refine ⟨?_, ?_, by decide, by decide⟩
  · refine Reach.cons (Step.sendA (sysInit Nat) 0 10 (by decide) (by decide)) ?_
    refine Reach.cons (Step.sendB _ 0 10 (by decide) (by decide)) ?_
    exact Reach.cons (Step.sendA _ 1 11 (by decide) (by decide)) (Reach.nil _)
  · refine Step.recv _ 0 0 10 [(1, 11)] (by decide) ?_
    intro w
    simp

/-- C8 (amended): in every receive variant the second assertion — the
buffer is no longer full after the dequeue — holds on every channel;
the first assertion — the dequeued front of a full buffer is not tagged
with the receiving thread's id — holds on synchronous channels
(`N = 0`), where a nonempty buffer holds exactly the in-flight sender's
element and that sender is suspended in phase B, so it cannot be the
receiver.  (On buffered channels the first assertion can fail without
any self-send, as the counterexample shows.) -/
theorem c8_self_receive_amended (N : Nat) (tr : List (Event T))
    (s : SysState T) (sid : Nat) (v : T) (rest : List (Nat × T))
    (h : Reach N (sysInit T) tr s) (hbuf : s.chan.buffer = (sid, v) :: rest) :
    is_full N (⟨rest, s.chan.is_send_done⟩ : ChanState T) = false ∧
    (N = 0 → ∀ tid s', Step 0 s (Event.recv tid v) s' →
      recv_assert_ok 0 tid s.chan (sid, v)) := by
  constructor
  · obtain ⟨hdone, hlen, hsome⟩ := reach_preserves_inv h (sysInit_inv N T)
    rw [hbuf] at hlen
    simp only [List.length_cons] at hlen
    exact is_full_eq_false.mpr (by simpa using hlen)
  · intro hN tid s' hst
    subst hN
    have hsync := reach_preserves_syncInv h (Or.inl rfl)
    rcases hsync with hnil | ⟨p, hb2, hin⟩
    · rw [hnil] at hbuf
      cases hbuf
    · right
      intro htid
      rw [hbuf] at hb2
      have hp : p = (sid, v) := by
        have h2 := List.cons.inj hb2
        exact h2.1.symm
      have htid2 : tid = sid := by simpa using htid
      cases hst with
      | recv tid2 sid2 v2 rest2 hbuf2 hseq =>
          exact hseq v (by rw [hin, hp, htid2])

/-- Witness for C8 (amended): after a single synchronous deposit the
receive dequeues the only element and leaves a buffer that is not
full. -/
theorem c8_self_receive_amended_witness :
    is_full 0 (⟨[], false⟩ : ChanState Nat) = false := by
  have hreach : Reach 0 (sysInit Nat) [Event.sendA 0 7]
      ⟨⟨[(0, 7)], false⟩, some (0, 7)⟩ :=
    Reach.cons (Step.sendA (sysInit Nat) 0 7 (by decide) (by decide)) (Reach.nil _)
  exact (c8_self_receive_amended 0 _ _ 0 7 [] hreach rfl).1

/-- C9: handle equality is identity of the underlying object.  Two
handles compare equal exactly when their stored shared pointers
coincide; the comparison is reflexive, symmetric and transitive, is
preserved by copy construction and by assignment, and every directional
handle compares equal to the bidirectional handle it was constructed
from (in either handle combination). -/
theorem c9_handle_equality (a b c d : channel_handle)
    (i : ichannel_handle) (o : ochannel_handle) :
    (channel_eq a b = true ↔ a.m_channel_ptr = b.m_channel_ptr) ∧
    channel_eq a a = true ∧
    channel_eq a b = channel_eq b a ∧
    (channel_eq a b = true → channel_eq b c = true → channel_eq a c = true) ∧
    channel_eq (copy_channel a) a = true ∧
    channel_eq (assign_channel d a) a = true ∧
    channel_ichannel_eq a (to_ichannel a) = true ∧
    channel_ochannel_eq a (to_ochannel a) = true ∧
    (ichannel_eq i (to_ichannel a) = true ↔ i.m_channel_ptr = a.m_channel_ptr) ∧
    (ochannel_eq o (to_ochannel a) = true ↔ o.m_channel_ptr = a.m_channel_ptr) := by
  refine ⟨?_, ?_, ?_, ?_, ?_, ?_, ?_, ?_, ?_, ?_⟩
  · simp [channel_eq]
  · simp [channel_eq]
  · by_cases h : a.m_channel_ptr = b.m_channel_ptr
    · simp [channel_eq, h]
    · have h' : b.m_channel_ptr ≠ a.m_channel_ptr := fun he => h he.symm
      simp [channel_eq, h, h']
  · intro h1 h2
    simp [channel_eq] at h1 h2 ⊢
    omega
  · simp [channel_eq, copy_channel]
  · simp [channel_eq, assign_channel]
  · simp [channel_ichannel_eq, to_ichannel]
  · simp [channel_ochannel_eq, to_ochannel]
  · simp [ichannel_eq, to_ichannel]
  · simp [ochannel_eq, to_ochannel]

/-- Witness for C9: transitivity applied at concrete handles sharing
pointer 5, and a directional handle comparing equal to its source. -/
theorem c9_handle_equality_witness :
    channel_eq ⟨5⟩ ⟨5⟩ = true ∧
    channel_ichannel_eq ⟨5⟩ (to_ichannel ⟨5⟩) = true := by
  have h := c9_handle_equality ⟨5⟩ ⟨5⟩ ⟨5⟩ ⟨1⟩ ⟨5⟩ ⟨5⟩
  exact ⟨h.2.2.2.1 h.2.1 h.2.1, h.2.2.2.2.2.2.1⟩

/-- C10: the static assertion `N < numeric_limits<size_t>::max()`
required by every instantiation of `channel` and `_channel` holds
exactly when a buffer size representable in `size_t` can make the
fullness test `buffer.size() > N` true — that is, exactly when the
channel can actually become full. -/
theorem c10_capacity_static_assert (N : Nat) :
    channel_capacity_ok N ↔
      ∃ k, k ≤ size_t_max ∧
        is_full N (⟨List.replicate k ((0 : Nat), (0 : Nat)), true⟩ : ChanState Nat)
          = true := by
  constructor
  · intro h
    refine ⟨N + 1, h, ?_⟩
    simp [is_full]
  · rintro ⟨k, hk, hfull⟩
    have hlt := is_full_eq_true.mp hfull
    simp only [List.length_replicate] at hlt
    show N < size_t_max
    exact lt_of_lt_of_le hlt hk

theorem fireCase_frame (tid : Nat) (chans : List (SelChan T)) (c : SelectCase T)
    (k : Nat) (hk : k ≠ SelectCase.chIdx c) :
    (fireCase tid chans c)[k]? = chans[k]? := by
  cases c with
  | recvCase i =>
      have hik : i ≠ k := by simp [SelectCase.chIdx] at hk; omega
      cases h : chans[i]? with
      | none => simp [fireCase, h]
      | some ch => simp [fireCase, h, List.getElem?_set_ne hik]
  | sendCase i v =>
      have hik : i ≠ k := by simp [SelectCase.chIdx] at hk; omega
      cases h : chans[i]? with
      | none => simp [fireCase, h]
      | some ch => simp [fireCase, h, List.getElem?_set_ne hik]

/-- C4: select fires exactly one case (spec-modelled: the select
implementation is not among the sources, so the scan is modelled from
the specification).  If at least one case of a descriptor is ready,
the wait scan fires exactly one case — the first ready one — performing
that case's channel operation and leaving every other channel
untouched, so at most that case's callback runs; if no case is ready
nothing fires and no channel is consumed from or deposited into. -/
theorem c4_select_fires_exactly_one (tid : Nat) (cs : List (SelectCase T))
    (chans : List (SelChan T)) :
    ((∃ c, c ∈ cs ∧ caseReady chans c = true) →
      ∃ c chans', selectScan tid chans cs = some (c, chans') ∧ c ∈ cs ∧
        caseReady chans c = true ∧ chans' = fireCase tid chans c ∧
        ∀ k, k ≠ SelectCase.chIdx c → chans'[k]? = chans[k]?) ∧
    ((∀ c, c ∈ cs → caseReady chans c = false) →
      selectScan tid chans cs = none) := by
  induction cs with
  | nil =>
      refine ⟨?_, fun _ => rfl⟩
      rintro ⟨c, hc, -⟩
      cases hc
  | cons c0 cs ih =>
      by_cases h : caseReady chans c0 = true
      · refine ⟨?_, ?_⟩
        · intro _
          refine ⟨c0, fireCase tid chans c0, by simp [selectScan, h],
            List.mem_cons_self _ _, h, rfl, ?_⟩
          intro k hk
          exact fireCase_frame tid chans c0 k hk
        · intro hall
          exact absurd (hall c0 (List.mem_cons_self _ _)) (by simp [h])
      · have h' : caseReady chans c0 = false := by
          cases hcr : caseReady chans c0
          · rfl
          · exact absurd hcr h
        refine ⟨?_, ?_⟩
        · rintro ⟨c, hc, hr⟩
          rcases List.mem_cons.mp hc with rfl | hmem
          · exact absurd hr h
          · obtain ⟨c', chans', hscan, hmem', hr', hfire, hframe⟩ :=
              ih.1 ⟨c, hmem, hr⟩
            exact ⟨c', chans', by simp [selectScan, h', hscan],
              List.mem_cons_of_mem _ hmem', hr', hfire, hframe⟩
        · intro hall
          have htail := ih.2 (fun c hc => hall c (List.mem_cons_of_mem _ hc))
          simp [selectScan, h', htail]

/-- Witness for C4, mirroring the `SelectOnlyAvailable` test: channel 1
(capacity 1) is preloaded with 42, channel 0 is empty; the scan over a
receive case on each fires one case. -/
theorem c4_select_fires_exactly_one_witness :
    (selectScan 9
      [SelChan.mk 0 ⟨[], true⟩, SelChan.mk 1 ⟨[(5, (42 : Nat))], true⟩]
      [SelectCase.recvCase 0, SelectCase.recvCase 1]).isSome = true := by
  obtain ⟨c, chans', hscan, -, -, -, -⟩ :=
    (c4_select_fires_exactly_one 9
      [SelectCase.recvCase 0, SelectCase.recvCase 1]
      [SelChan.mk 0 ⟨[], true⟩, SelChan.mk 1 ⟨[(5, (42 : Nat))], true⟩]).1
      ⟨SelectCase.recvCase 1, by decide, by decide⟩
  simp [hscan]
